import Mathlib

/-!
Verification development for the guide-to-mongodb repository.

The repository ships two small JavaScript files (`app.js`, `config/db.js`)
and two tutorial documents.  Its specification defines, in addition, a
generic document-relationship and authorization layer (Reference Resolver
and Access Control Gate) that the tutorial repeatedly demonstrates but does
not implement as library code.  The Gate and Resolver below are therefore
modelled from the spec; the startup, connection and registration models are
translated from the JavaScript source and the tutorial controller code.
-/

namespace GuideMongo

/-- Operation kinds recognized by the Access Control Gate.
Modelled from the spec: operationKind is one of Read, Create, Update,
Delete (an extensible set). -/
inductive OperationKind where
  | read
  | create
  | update
  | delete
  deriving DecidableEq, Repr

/-- Authenticated identity.
Modelled from the spec: Principal = (subject identifier, role). -/
structure Principal where
  subject : String
  role : String
  deriving DecidableEq, Repr

/-- Value of a Permission Table entry: allow/deny, optionally marked
owner-only.  Modelled from the spec: the table maps (role, operation-kind)
to allow/deny, and a rule may be marked "owner-only". -/
structure Rule where
  allow : Bool
  ownerOnly : Bool
  deriving DecidableEq, Repr

/-- Permission Table.
Modelled from the spec: a static, read-only mapping from
(role, operation-kind) to a rule; represented as an association list. -/
def PermissionTable : Type := List ((String × OperationKind) × Rule)

/-- Optional resource hint that may carry an owner identifier.
Modelled from the spec: resourceHint may carry an owner identifier. -/
structure ResourceHint where
  owner : Option String
  deriving DecidableEq, Repr

/-- Reasons for a Deny decision.
Modelled from the spec: Deny(reason) distinguishes NoRuleDefined from
NotOwner; ruleDenies covers an explicit deny entry in the table. -/
inductive DenyReason where
  | noRuleDefined
  | notOwner
  | ruleDenies
  deriving DecidableEq, Repr

/-- Decision returned by the Gate; never an exception channel.
Modelled from the spec: authorize returns Allow or Deny(reason). -/
inductive Decision where
  | allow
  | deny (reason : DenyReason)
  deriving DecidableEq, Repr

/-- Exact-match lookup in the Permission Table.
Modelled from the spec: lookup is an exact match on
(principal.role, operationKind). -/
def lookupRule (t : PermissionTable) (role : String) (op : OperationKind) :
    Option Rule :=
  match t with
  | [] => none
  | e :: rest => if e.1 = (role, op) then some e.2 else lookupRule rest role op

/-- Access Control Gate.
Modelled from the spec: authorize(principal, operationKind, resourceHint?)
returns Allow or Deny(reason); absent rule gives Deny(NoRuleDefined); for a
rule marked owner-only with a hint carrying an owner identifier, Allow only
if principal.subject equals the owner, else Deny(NotOwner). -/
def authorize (t : PermissionTable) (p : Principal) (op : OperationKind)
    (hint : Option ResourceHint) : Decision :=
  match lookupRule t p.role op with
  | none => .deny .noRuleDefined
  | some r =>
    match (if r.ownerOnly then hint.bind (fun h => h.owner) else none) with
    | some o =>
      if p.subject = o then
        (if r.allow then .allow else .deny .ruleDenies)
      else .deny .notOwner
    | none => if r.allow then .allow else .deny .ruleDenies

/-- C1: for every (role, operationKind) pair that has no explicit rule in
the Permission Table, authorize returns Deny with reason NoRuleDefined
(default-deny); authorize is a total function, so the lookup can never
raise an exception or hit a missing case. -/
theorem authorize_default_deny (t : PermissionTable) (p : Principal)
    (op : OperationKind) (hint : Option ResourceHint)
    (h : lookupRule t p.role op = none) :
    authorize t p op hint = .deny .noRuleDefined := by
  unfold authorize
  rw [h]

/-- Witness for C1: a concrete table with no (user, delete) entry is denied
with NoRuleDefined. -/
theorem authorize_default_deny_witness :
    lookupRule [(("admin", OperationKind.delete), ⟨true, false⟩)]
        "user" OperationKind.delete = none ∧
      authorize [(("admin", OperationKind.delete), ⟨true, false⟩)]
        ⟨"s1", "user"⟩ OperationKind.delete none = .deny .noRuleDefined :=
  ⟨by decide,
    authorize_default_deny [(("admin", OperationKind.delete), ⟨true, false⟩)]
      ⟨"s1", "user"⟩ OperationKind.delete none (by decide)⟩

/-- C6: for a rule marked owner-only and a resource hint carrying an owner
identifier, authorize returns Allow if and only if the principal's subject
equals the hint's owner and the base rule allows the role; when the
subjects differ it returns Deny with reason NotOwner. -/
theorem authorize_owner_only (t : PermissionTable) (p : Principal)
    (op : OperationKind) (r : Rule) (o : String)
    (hr : lookupRule t p.role op = some r) (hown : r.ownerOnly = true) :
    (authorize t p op (some ⟨some o⟩) = .allow ↔
        (p.subject = o ∧ r.allow = true)) ∧
      (p.subject ≠ o → authorize t p op (some ⟨some o⟩) = .deny .notOwner) := by
  unfold authorize
  rw [hr]
  by_cases hs : p.subject = o <;> by_cases ha : r.allow = true <;>
    simp [hown, hs, ha]

/-- Witness for C6: with an owner-only allow rule for (user, update), the
owner is allowed and a different subject is denied with NotOwner. -/
theorem authorize_owner_only_witness :
    authorize [(("user", OperationKind.update), ⟨true, true⟩)]
        ⟨"alice", "user"⟩ OperationKind.update (some ⟨some "alice"⟩) =
      .allow ∧
      authorize [(("user", OperationKind.update), ⟨true, true⟩)]
        ⟨"bob", "user"⟩ OperationKind.update (some ⟨some "alice"⟩) =
      .deny .notOwner := by
  constructor
  · exact (authorize_owner_only
      [(("user", OperationKind.update), ⟨true, true⟩)]
      ⟨"alice", "user"⟩ OperationKind.update ⟨true, true⟩ "alice"
      (by decide) rfl).1.mpr ⟨rfl, rfl⟩
  · exact (authorize_owner_only
      [(("user", OperationKind.update), ⟨true, true⟩)]
      ⟨"bob", "user"⟩ OperationKind.update ⟨true, true⟩ "alice"
      (by decide) rfl).2 (by decide)

/-- Field values stored in a Document.
Modelled from the spec: values are primitives (strings, numbers), or
References (target collection, target identifier), possibly an ordered
sequence of References. -/
inductive Value where
  | str (s : String)
  | num (n : Int)
  | ref (coll : String) (id : Nat)
  | refList (refs : List (String × Nat))
  deriving DecidableEq, Repr

/-- Stored document: unique identifier plus named fields.
Modelled from the spec: a Document is a mapping from field name to value,
with a unique identifier assigned at creation. -/
structure Document where
  id : Nat
  fields : List (String × Value)
  deriving DecidableEq, Repr

/-- Storage collaborator state: named collections of documents.
Modelled from the spec: a Collection is a named set of Documents. -/
structure Storage where
  collections : List (String × List Document)
  deriving DecidableEq, Repr

/-- First document with the given identifier in a collection's list. -/
def findDoc : List Document → Nat → Option Document
  | [], _ => none
  | d :: rest, i => if d.id = i then some d else findDoc rest i

/-- Documents of the named collection, when declared. -/
def findColl : List (String × List Document) → String → Option (List Document)
  | [], _ => none
  | c :: rest, n => if c.1 = n then some c.2 else findColl rest n

/-- Storage interface getById(collection, id) -> Document | NotFound.
Modelled from the spec's Storage collaborator. -/
def getById (st : Storage) (coll : String) (id : Nat) : Option Document :=
  match findColl st.collections coll with
  | none => none
  | some ds => findDoc ds id

/-- Values in a resolved (expanded) document: the stored value forms plus
expanded target documents, expanded reference sequences, and the explicit
UnresolvedReference and already-expanding markers.
Modelled from the spec's population output and error-handling design. -/
inductive RValue where
  | str (s : String)
  | num (n : Int)
  | ref (coll : String) (id : Nat)
  | refList (refs : List (String × Nat))
  | docVal (id : Nat) (fields : List (String × RValue))
  | expanded (items : List RValue)
  | unresolved (coll : String) (id : Nat)
  | alreadyExpanding (coll : String) (id : Nat)

/-- Embedding of a stored value into the resolved-value type. -/
def embedValue : Value → RValue
  | .str s => .str s
  | .num n => .num n
  | .ref c i => .ref c i
  | .refList rs => .refList rs

/-- Embedding of stored fields into resolved fields. -/
def embedFields (fs : List (String × Value)) : List (String × RValue) :=
  fs.map (fun f => (f.1, embedValue f.2))

/-- First field with the given name in a stored field list. -/
def findField : List (String × Value) → String → Option Value
  | [], _ => none
  | f :: rest, n => if f.1 = n then some f.2 else findField rest n

/-- First field with the given name in a resolved field list. -/
def findRField : List (String × RValue) → String → Option RValue
  | [], _ => none
  | f :: rest, n => if f.1 = n then some f.2 else findRField rest n

/-- Replace the first field with the given name, leaving others unchanged. -/
def replaceField : List (String × RValue) → String → RValue →
    List (String × RValue)
  | [], _, _ => []
  | f :: rest, n, v =>
    if f.1 = n then (n, v) :: rest else f :: replaceField rest n v

/-- Distinct target collections named by a reference sequence. -/
def collsOf (refs : List (String × Nat)) : List String :=
  (refs.map (fun r => r.1)).dedup

/-- Distinct target identifiers referenced for one target collection. -/
def idsFor (refs : List (String × Nat)) (c : String) : List Nat :=
  ((refs.filter (fun r => decide (r.1 = c))).map (fun r => r.2)).dedup

/-- Log of batched storage lookups: one entry per batched lookup, carrying
the target collection and the distinct identifiers fetched. -/
abbrev LookupLog : Type := List (String × List Nat)

/-- Batched lookups a reference sequence requires: a single batched lookup
per distinct target collection, each over the distinct identifiers.
Modelled from the spec: collects all distinct target identifiers and issues
a single batched lookup per distinct target collection. -/
def batchPlan (refs : List (String × Nat)) : LookupLog :=
  (collsOf refs).map (fun c => (c, idsFor refs c))

/-- Resolution errors.
Modelled from the spec: ResolutionError is raised for a malformed or
unknown path and aborts the whole resolve call. -/
inductive ResolutionError where
  | emptyPath
  | unknownPath (name : String)
  deriving DecidableEq, Repr

mutual

/-- Expansion of one Reference occurrence.
Modelled from the spec: a (collection, id) pair already being expanded
along the current path chain stops with an already-expanding marker; a
target identifier that no longer exists resolves to an explicit unresolved
marker; otherwise the target document is substituted and, when a nested
path remains, resolved recursively along it. -/
def expandRef (st : Storage) (visited : List (String × Nat)) (coll : String)
    (id : Nat) (fetched : Option Document) (rest : List String) :
    Except ResolutionError (RValue × LookupLog) :=
  if (coll, id) ∈ visited then .ok (.alreadyExpanding coll id, [])
  else
    match fetched with
    | none => .ok (.unresolved coll id, [])
    | some d =>
      match rest with
      | [] => .ok (.docVal d.id (embedFields d.fields), [])
      | s :: ss => do
        let r ← resolvePath st ((coll, id) :: visited) (embedFields d.fields)
          (s :: ss)
        .ok (.docVal d.id r.1, r.2)
termination_by (rest.length, 1, 0)

/-- Positional expansion of a reference sequence: results are spliced back
into the corresponding positions.  Each element is expanded against the
document the batched lookup fetched for it. -/
def expandRefs (st : Storage) (visited : List (String × Nat))
    (refs : List (String × Nat)) (rest : List String) :
    Except ResolutionError (List RValue × LookupLog) :=
  match refs with
  | [] => .ok ([], [])
  | r :: rs => do
    let v ← expandRef st visited r.1 r.2 (getById st r.1 r.2) rest
    let vs ← expandRefs st visited rs rest
    .ok (v.1 :: vs.1, v.2 ++ vs.2)
termination_by (rest.length, 2, refs.length)

/-- Resolution of a single field path against resolved fields.
Modelled from the spec: the path must name a field whose declared type is
Reference or an ordered sequence of References; unknown or malformed paths
fail with a ResolutionError; a reference-sequence field issues the batched
lookups of batchPlan and splices results positionally. -/
def resolvePath (st : Storage) (visited : List (String × Nat))
    (rfs : List (String × RValue)) (path : List String) :
    Except ResolutionError (List (String × RValue) × LookupLog) :=
  match path with
  | [] => .error .emptyPath
  | name :: rest =>
    match findRField rfs name with
    | some (.ref c i) => do
      let v ← expandRef st visited c i (getById st c i) rest
      .ok (replaceField rfs name v.1, (c, [i]) :: v.2)
    | some (.refList refs) => do
      let vs ← expandRefs st visited refs rest
      .ok (replaceField rfs name (.expanded vs.1), batchPlan refs ++ vs.2)
    | _ => .error (.unknownPath name)
termination_by (path.length, 0, 0)

end

/-- Sequential resolution of a list of paths, in declared path order.
An error on any path aborts the whole call with no partial result. -/
def resolvePaths (st : Storage) (visited : List (String × Nat))
    (rfs : List (String × RValue)) (paths : List (List String)) :
    Except ResolutionError (List (String × RValue) × LookupLog) :=
  match paths with
  | [] => .ok (rfs, [])
  | p :: ps => do
    let r1 ← resolvePath st visited rfs p
    let r2 ← resolvePaths st visited r1.1 ps
    .ok (r2.1, r1.2 ++ r2.2)

/-- Reference Resolver entry point.
Modelled from the spec: resolve(document, paths) -> expandedDocument; the
stored document is read-only and the result is a derived expanded copy,
paired here with the log of batched storage lookups the call issued.  The
root document's (collection, id) pair starts the chain of pairs being
expanded. -/
def resolve (st : Storage) (rootColl : String) (d : Document)
    (paths : List (List String)) :
    Except ResolutionError ((Nat × List (String × RValue)) × LookupLog) :=
  match resolvePaths st [(rootColl, d.id)] (embedFields d.fields) paths with
  | .error e => .error e
  | .ok r => .ok ((d.id, r.1), r.2)

/-- Expansion of a single reference with no nested path remaining, as a
plain function of the storage, the chain of pairs being expanded, and the
reference. -/
def expandOne (st : Storage) (vis : List (String × Nat)) (r : String × Nat) :
    RValue :=
  if (r.1, r.2) ∈ vis then .alreadyExpanding r.1 r.2
  else
    match getById st r.1 r.2 with
    | none => .unresolved r.1 r.2
    | some d => .docVal d.id (embedFields d.fields)

theorem exbind_eq_ok {ε α β : Type} {e : Except ε α} {f : α → Except ε β}
    {b : β} (h : bind e f = .ok b) : ∃ a, e = .ok a ∧ f a = .ok b := by
  cases e with
  | error err =>
    simp only [Bind.bind, Except.bind] at h
    exact absurd h (by simp)
  | ok a => exact ⟨a, rfl, h⟩

theorem expandRef_visited (st : Storage) (vis : List (String × Nat))
    (c : String) (i : Nat) (fetched : Option Document) (rest : List String)
    (h : (c, i) ∈ vis) :
    expandRef st vis c i fetched rest = .ok (.alreadyExpanding c i, []) := by
  unfold expandRef
  simp [h]

theorem expandRef_nil (st : Storage) (vis : List (String × Nat))
    (c : String) (i : Nat) :
    expandRef st vis c i (getById st c i) [] =
      .ok (expandOne st vis (c, i), []) := by
  unfold expandRef expandOne
  by_cases h : (c, i) ∈ vis
  · simp [h]
  · simp only [h, if_false, ite_false]
    cases getById st c i <;> simp

theorem expandRefs_nil (st : Storage) (vis : List (String × Nat))
    (refs : List (String × Nat)) :
    expandRefs st vis refs [] = .ok (refs.map (expandOne st vis), []) := by
  induction refs with
  | nil => simp [expandRefs]
  | cons r rs ih =>
    simp [expandRefs, expandRef_nil, ih, Bind.bind, Except.bind]

theorem findRField_embedFields (fs : List (String × Value)) (f : String) :
    findRField (embedFields fs) f = (findField fs f).map embedValue := by
  induction fs with
  | nil => rfl
  | cons g gs ih =>
    by_cases h : g.1 = f
    · simp [embedFields, findRField, findField, h]
    · simp only [embedFields, List.map, findRField, findField, h, if_false,
        ite_false]
      exact ih

theorem findRField_replaceField_ne (rfs : List (String × RValue))
    (n f : String) (v : RValue) (h : f ≠ n) :
    findRField (replaceField rfs n v) f = findRField rfs f := by
  induction rfs with
  | nil => rfl
  | cons g gs ih =>
    by_cases hg : g.1 = n
    · simp [replaceField, findRField, hg, Ne.symm h]
    · simp only [replaceField, hg, if_false, ite_false]
      by_cases hf : g.1 = f
      · simp [findRField, hf]
      · simp [findRField, hf, ih]

theorem findRField_replaceField_eq (rfs : List (String × RValue))
    (n : String) (v : RValue) :
    findRField (replaceField rfs n v) n =
      (findRField rfs n).map (fun _ => v) := by
  induction rfs with
  | nil => rfl
  | cons g gs ih =>
    by_cases hg : g.1 = n
    · simp [replaceField, findRField, hg]
    · simp [replaceField, findRField, hg, ih]

theorem resolvePath_refList (st : Storage) (vis : List (String × Nat))
    (rfs : List (String × RValue)) (f : String) (refs : List (String × Nat))
    (h : findRField rfs f = some (.refList refs)) :
    resolvePath st vis rfs [f] =
      .ok (replaceField rfs f (.expanded (refs.map (expandOne st vis))),
        batchPlan refs) := by
  unfold resolvePath
  rw [h]
  simp [expandRefs_nil, Bind.bind, Except.bind]

theorem resolve_single_refList (st : Storage) (rc : String) (d : Document)
    (f : String) (refs : List (String × Nat))
    (h : findField d.fields f = some (.refList refs)) :
    resolve st rc d [[f]] =
      .ok ((d.id, replaceField (embedFields d.fields) f
          (.expanded (refs.map (expandOne st [(rc, d.id)])))),
        batchPlan refs) := by
  have hf : findRField (embedFields d.fields) f = some (.refList refs) := by
    rw [findRField_embedFields, h]; rfl
  unfold resolve
  simp [resolvePaths, resolvePath_refList st [(rc, d.id)] _ f refs hf,
    Bind.bind, Except.bind]

/-- User document of the spec's end-to-end scenario: Alice references
Post 10 and the missing Post 11. -/
def aliceDoc : Document :=
  ⟨1, [("name", .str "Alice"),
       ("posts", .refList [("Post", 10), ("Post", 11)])]⟩

/-- Storage of the spec's end-to-end scenario: it holds Alice and Post 10,
and no document 11. -/
def postsStorage : Storage :=
  ⟨[("User", [aliceDoc]), ("Post", [⟨10, [("title", .str "First Post")]⟩])]⟩

/-- C2: a Reference whose target identifier no longer exists in its
collection resolves to an explicit UnresolvedReference marker at that
element's position in the expanded sequence — the call succeeds (no error)
and the element is not silently omitted, since the expanded sequence is a
positional image of the reference sequence. -/
theorem resolve_missing_target (st : Storage) (rc : String) (d : Document)
    (f : String) (refs : List (String × Nat)) (k : Nat) (c : String) (i : Nat)
    (hfield : findField d.fields f = some (.refList refs))
    (hk : refs[k]? = some (c, i))
    (hmissing : getById st c i = none)
    (hroot : (c, i) ≠ (rc, d.id)) :
    resolve st rc d [[f]] =
        .ok ((d.id, replaceField (embedFields d.fields) f
          (.expanded (refs.map (expandOne st [(rc, d.id)])))),
          batchPlan refs) ∧
      (refs.map (expandOne st [(rc, d.id)]))[k]? =
        some (.unresolved c i) := by
  refine ⟨resolve_single_refList st rc d f refs hfield, ?_⟩
  rw [List.getElem?_map, hk]
  simp [expandOne, hroot, hmissing]

/-- Witness for C2: the spec's scenario storage, where Post 11 is missing,
yields the UnresolvedReference marker at position 1 of the expanded posts. -/
theorem resolve_missing_target_witness :
    (findField aliceDoc.fields "posts" =
          some (.refList [("Post", 10), ("Post", 11)]) ∧
        getById postsStorage "Post" 11 = none) ∧
      (resolve postsStorage "User" aliceDoc [["posts"]] =
          .ok ((aliceDoc.id, replaceField (embedFields aliceDoc.fields) "posts"
            (.expanded ([("Post", 10), ("Post", 11)].map
              (expandOne postsStorage [("User", aliceDoc.id)])))),
            batchPlan [("Post", 10), ("Post", 11)]) ∧
        ([("Post", 10), ("Post", 11)].map
            (expandOne postsStorage [("User", aliceDoc.id)]))[1]? =
          some (.unresolved "Post" 11)) :=
  ⟨⟨rfl, rfl⟩,
    resolve_missing_target postsStorage "User" aliceDoc "posts"
      [("Post", 10), ("Post", 11)] 1 "Post" 11 rfl rfl rfl (by decide)⟩

/-- C4: resolving a reference-sequence field issues exactly the batched
lookups of batchPlan: one lookup per distinct target collection (the
collection keys of the log are nodup and every referenced collection has
exactly one entry), and each lookup fetches exactly the distinct
identifiers referenced for that collection, not one lookup per
reference. -/
theorem resolve_batching (st : Storage) (rc : String) (d : Document)
    (f : String) (refs : List (String × Nat))
    (hfield : findField d.fields f = some (.refList refs)) :
    (∃ rfs, resolve st rc d [[f]] = .ok ((d.id, rfs), batchPlan refs)) ∧
      ((batchPlan refs).map (fun e => e.1)).Nodup ∧
      (∀ c ids, (c, ids) ∈ batchPlan refs →
        ids.Nodup ∧ ∀ i, i ∈ ids ↔ (c, i) ∈ refs) ∧
      (∀ c, c ∈ refs.map (fun r => r.1) ↔
        ∃ ids, (c, ids) ∈ batchPlan refs) := by
  refine ⟨⟨_, resolve_single_refList st rc d f refs hfield⟩, ?_, ?_, ?_⟩
  · have hkeys : (batchPlan refs).map (fun e => e.1) = collsOf refs := by
      unfold batchPlan
      rw [List.map_map]
      exact List.map_id _
    rw [hkeys]
    exact List.nodup_dedup _
  · intro c ids hmem
    rcases List.mem_map.mp hmem with ⟨c0, hc0, heq⟩
    rw [Prod.mk.injEq] at heq
    obtain ⟨rfl, rfl⟩ := heq
    refine ⟨List.nodup_dedup _, ?_⟩
    intro i
    simp only [idsFor, List.mem_dedup, List.mem_map, List.mem_filter,
      decide_eq_true_eq]
    constructor
    · rintro ⟨r, ⟨hr, hrc⟩, hri⟩
      obtain ⟨r1, r2⟩ := r
      simp only at hrc hri
      rw [hrc, hri] at hr
      exact hr
    · intro hci
      exact ⟨(c0, i), ⟨hci, rfl⟩, rfl⟩
  · intro c
    constructor
    · intro hc
      refine ⟨idsFor refs c, List.mem_map.mpr ⟨c, ?_, rfl⟩⟩
      simp only [collsOf, List.mem_dedup]
      exact hc
    · rintro ⟨ids, hmem⟩
      rcases List.mem_map.mp hmem with ⟨c0, hc0, heq⟩
      rw [Prod.mk.injEq] at heq
      obtain ⟨rfl, -⟩ := heq
      simp only [collsOf, List.mem_dedup] at hc0
      exact hc0

/-- Witness for C4: the batching property evaluated on the spec's posts
scenario, whose field references Post 10 and Post 11. -/
theorem resolve_batching_witness :
    findField aliceDoc.fields "posts" =
        some (.refList [("Post", 10), ("Post", 11)]) ∧
      ((∃ rfs, resolve postsStorage "User" aliceDoc [["posts"]] =
          .ok ((aliceDoc.id, rfs), batchPlan [("Post", 10), ("Post", 11)])) ∧
        ((batchPlan [("Post", 10), ("Post", 11)]).map
          (fun e => e.1)).Nodup ∧
        (∀ c ids, (c, ids) ∈ batchPlan [("Post", 10), ("Post", 11)] →
          ids.Nodup ∧ ∀ i, i ∈ ids ↔ (c, i) ∈ [("Post", 10), ("Post", 11)]) ∧
        (∀ c, c ∈ [("Post", 10), ("Post", 11)].map (fun r => r.1) ↔
          ∃ ids, (c, ids) ∈ batchPlan [("Post", 10), ("Post", 11)])) :=
  ⟨rfl, resolve_batching postsStorage "User" aliceDoc "posts"
    [("Post", 10), ("Post", 11)] rfl⟩

/-- User A of the spec's cycle scenario, whose bestFriend is user B. -/
def userA : Document :=
  ⟨1, [("name", .str "A"), ("bestFriend", .ref "User" 2)]⟩

/-- User B of the spec's cycle scenario, whose bestFriend is user A. -/
def userB : Document :=
  ⟨2, [("name", .str "B"), ("bestFriend", .ref "User" 1)]⟩

/-- Storage of the spec's cycle scenario: users A and B reference each
other through bestFriend. -/
def cycleStorage : Storage := ⟨[("User", [userA, userB])]⟩

/-- C5: when expansion revisits a (collection, id) pair already being
expanded along the same path chain, the Resolver places an
already-expanding marker there instead of recursing (first conjunct), and
on the spec's mutual-bestFriend scenario, resolving
bestFriend.bestFriend on A terminates with A containing B containing the
already-expanding marker for A (second conjunct); termination of every
resolve call is established by the well-founded definitions themselves. -/
theorem resolve_cycle_detection :
    (∀ (st : Storage) (vis : List (String × Nat)) (c : String) (i : Nat)
        (fetched : Option Document) (rest : List String), (c, i) ∈ vis →
        expandRef st vis c i fetched rest =
          .ok (.alreadyExpanding c i, [])) ∧
      resolve cycleStorage "User" userA [["bestFriend", "bestFriend"]] =
        .ok ((1, [("name", .str "A"),
          ("bestFriend", .docVal 2 [("name", .str "B"),
            ("bestFriend", .alreadyExpanding "User" 1)])]),
          [("User", [2]), ("User", [1])]) := by
  constructor
  · intro st vis c i fetched rest h
    exact expandRef_visited st vis c i fetched rest h
  · simp [resolve, resolvePaths, resolvePath, expandRef, expandRefs, getById,
      findColl, findDoc, findRField, replaceField, embedFields, embedValue,
      batchPlan, collsOf, idsFor, userA, userB, cycleStorage, List.dedup,
      Bind.bind, Except.bind]

/-- Witness for C5: the already-expanding rule applied at the concrete
pair ("User", 1) already on the expansion chain. -/
theorem resolve_cycle_detection_witness :
    ("User", 1) ∈ [("User", 1)] ∧
      expandRef cycleStorage [("User", 1)] "User" 1 none [] =
        .ok (.alreadyExpanding "User" 1, []) :=
  ⟨by decide, resolve_cycle_detection.1 cycleStorage [("User", 1)] "User" 1
    none [] (by decide)⟩

/-- Values of declared Reference type: a single Reference or an ordered
sequence of References. -/
def isRefVal : RValue → Bool
  | .ref _ _ => true
  | .refList _ => true
  | _ => false

theorem expandRef_not_ref (st : Storage) (vis : List (String × Nat))
    (c : String) (i : Nat) (fetched : Option Document) (rest : List String)
    (v : RValue) (log : LookupLog)
    (h : expandRef st vis c i fetched rest = .ok (v, log)) :
    isRefVal v = false := by
  unfold expandRef at h
  split at h
  · simp only [Except.ok.injEq, Prod.mk.injEq] at h
    rw [← h.1]
    rfl
  · split at h
    · simp only [Except.ok.injEq, Prod.mk.injEq] at h
      rw [← h.1]
      rfl
    · split at h
      · simp only [Except.ok.injEq, Prod.mk.injEq] at h
        rw [← h.1]
        rfl
      · rcases exbind_eq_ok h with ⟨a, _, hb⟩
        simp only [Except.ok.injEq, Prod.mk.injEq] at hb
        rw [← hb.1]
        rfl

theorem resolvePath_ok_shape (st : Storage) (vis : List (String × Nat))
    (rfs rfs1 : List (String × RValue)) (path : List String) (log : LookupLog)
    (h : resolvePath st vis rfs path = .ok (rfs1, log)) :
    ∃ name rest v, path = name :: rest ∧ isRefVal v = false ∧
      rfs1 = replaceField rfs name v := by
  match path with
  | [] =>
    unfold resolvePath at h
    exact absurd h (by simp)
  | name :: rest =>
    unfold resolvePath at h
    rcases hv : findRField rfs name with _ | v
    · rw [hv] at h
      exact absurd h (by simp)
    · rw [hv] at h
      cases v
      case ref c i =>
        rcases exbind_eq_ok h with ⟨a, ha, hb⟩
        simp only [Except.ok.injEq, Prod.mk.injEq] at hb
        exact ⟨name, rest, a.1, rfl,
          expandRef_not_ref st vis c i (getById st c i) rest a.1 a.2 ha,
          hb.1.symm⟩
      case refList refs =>
        rcases exbind_eq_ok h with ⟨a, ha, hb⟩
        simp only [Except.ok.injEq, Prod.mk.injEq] at hb
        exact ⟨name, rest, .expanded a.1, rfl, rfl, hb.1.symm⟩
      all_goals exact absurd h (by simp)

theorem resolvePath_frame (st : Storage) (vis : List (String × Nat))
    (rfs rfs1 : List (String × RValue)) (path : List String) (log : LookupLog)
    (h : resolvePath st vis rfs path = .ok (rfs1, log)) :
    ∀ f, path.head? ≠ some f → findRField rfs1 f = findRField rfs f := by
  intro f hf
  rcases resolvePath_ok_shape st vis rfs rfs1 path log h with
    ⟨name, rest, v, hpath, _, hrepl⟩
  have hne : f ≠ name := fun he => hf (by rw [hpath, he]; simp)
  rw [hrepl]
  exact findRField_replaceField_ne rfs name f v hne

theorem resolvePaths_frame (st : Storage) (vis : List (String × Nat))
    (paths : List (List String)) :
    ∀ (rfs rfs1 : List (String × RValue)) (log : LookupLog),
      resolvePaths st vis rfs paths = .ok (rfs1, log) →
      ∀ f, (∀ p ∈ paths, p.head? ≠ some f) →
      findRField rfs1 f = findRField rfs f := by
  induction paths with
  | nil =>
    intro rfs rfs1 log h f _
    unfold resolvePaths at h
    simp only [Except.ok.injEq, Prod.mk.injEq] at h
    rw [← h.1]
  | cons q qs ih =>
    intro rfs rfs1 log h f hp
    unfold resolvePaths at h
    rcases exbind_eq_ok h with ⟨r1, h1, hrest⟩
    rcases exbind_eq_ok hrest with ⟨r2, h2, hfin⟩
    simp only [Except.ok.injEq, Prod.mk.injEq] at hfin
    rw [← hfin.1]
    have hqs : ∀ p ∈ qs, p.head? ≠ some f := fun p hmem =>
      hp p (List.mem_cons_of_mem q hmem)
    rw [ih r1.1 r2.1 r2.2 h2 f hqs]
    exact resolvePath_frame st vis rfs r1.1 q r1.2 h1 f
      (hp q (List.mem_cons_self q qs))

/-- C3: a successful resolve call returns a derived expanded copy with the
same identifier in which every field outside the requested path set is the
unchanged embedding of the stored field; the stored document itself is
never mutated, since resolve is a pure function of the storage and the
document and returns a fresh structure. -/
theorem resolve_frame (st : Storage) (rc : String) (d : Document)
    (paths : List (List String)) (i : Nat) (rfs : List (String × RValue))
    (log : LookupLog)
    (h : resolve st rc d paths = .ok ((i, rfs), log)) :
    i = d.id ∧
      ∀ f, (∀ p ∈ paths, p.head? ≠ some f) →
      findRField rfs f = (findField d.fields f).map embedValue := by
  unfold resolve at h
  split at h
  · exact absurd h (by simp)
  next r heq =>
    simp only [Except.ok.injEq, Prod.mk.injEq] at h
    refine ⟨h.1.1.symm, ?_⟩
    intro f hp
    rw [← h.1.2]
    rw [resolvePaths_frame st [(rc, d.id)] paths (embedFields d.fields)
      r.1 r.2 heq f hp]
    exact findRField_embedFields d.fields f

/-- Witness for C3: on the posts scenario, the field name, which is outside
the resolved path set, keeps its stored value. -/
theorem resolve_frame_witness :
    resolve postsStorage "User" aliceDoc [["posts"]] =
        .ok ((1, [("name", .str "Alice"),
          ("posts", .expanded [.docVal 10 [("title", .str "First Post")],
            .unresolved "Post" 11])]),
          [("Post", [10, 11])]) ∧
      (1 = aliceDoc.id ∧
        ∀ f, (∀ p ∈ [["posts"]], p.head? ≠ some f) →
        findRField [("name", RValue.str "Alice"),
          ("posts", .expanded [.docVal 10 [("title", .str "First Post")],
            .unresolved "Post" 11])] f =
          (findField aliceDoc.fields f).map embedValue) := by
  have h : resolve postsStorage "User" aliceDoc [["posts"]] =
      .ok ((1, [("name", .str "Alice"),
        ("posts", .expanded [.docVal 10 [("title", .str "First Post")],
          .unresolved "Post" 11])]),
        [("Post", [10, 11])]) := by
    simp [resolve, resolvePaths, resolvePath, expandRef, expandRefs, getById,
      findColl, findDoc, findRField, replaceField, embedFields, embedValue,
      batchPlan, collsOf, idsFor, aliceDoc, postsStorage, List.dedup,
      Bind.bind, Except.bind]
  exact ⟨h, resolve_frame postsStorage "User" aliceDoc [["posts"]] 1 _ _ h⟩

/-- Check of the spec's path input constraint against stored fields: a path
is well-formed for a document when it is nonempty and its head names a
field whose declared type is Reference or an ordered sequence of
References. -/
def refHead (fs : List (String × Value)) : List String → Bool
  | [] => false
  | name :: _ =>
    match findField fs name with
    | some (.ref _ _) => true
    | some (.refList _) => true
    | _ => false

/-- Same path check against resolved fields. -/
def refHeadR (rfs : List (String × RValue)) : List String → Bool
  | [] => false
  | name :: _ =>
    match findRField rfs name with
    | some (.ref _ _) => true
    | some (.refList _) => true
    | _ => false

theorem refHeadR_embedFields (fs : List (String × Value)) (p : List String) :
    refHeadR (embedFields fs) p = refHead fs p := by
  match p with
  | [] => rfl
  | name :: rest =>
    unfold refHeadR refHead
    dsimp only
    rw [findRField_embedFields]
    rcases findField fs name with _ | v
    · rfl
    · cases v <;> rfl

theorem resolvePath_not_ref_head (st : Storage) (vis : List (String × Nat))
    (rfs : List (String × RValue)) (p : List String)
    (h : refHeadR rfs p = false) :
    ∃ e, resolvePath st vis rfs p = .error e := by
  match p with
  | [] =>
    refine ⟨.emptyPath, ?_⟩
    unfold resolvePath
    rfl
  | name :: rest =>
    refine ⟨.unknownPath name, ?_⟩
    unfold resolvePath
    unfold refHeadR at h
    dsimp only at h
    rcases hv : findRField rfs name with _ | v
    · rfl
    · rw [hv] at h
      cases v
      case ref c i => simp at h
      case refList refs => simp at h
      all_goals rfl

theorem refHeadR_preserved (rfs : List (String × RValue)) (n : String)
    (v : RValue) (hv : isRefVal v = false) (p : List String)
    (h : refHeadR rfs p = false) :
    refHeadR (replaceField rfs n v) p = false := by
  match p with
  | [] => rfl
  | name :: rest =>
    unfold refHeadR at h ⊢
    dsimp only at h ⊢
    by_cases hn : name = n
    · subst hn
      rw [findRField_replaceField_eq]
      rcases findRField rfs name with _ | w
      · rfl
      · simp only [Option.map]
        cases v
        all_goals first | rfl | simp [isRefVal] at hv
    · rw [findRField_replaceField_ne rfs n name v hn]
      exact h

theorem resolvePaths_unknown (st : Storage) (vis : List (String × Nat))
    (p : List String) :
    ∀ (paths : List (List String)) (rfs : List (String × RValue)),
      p ∈ paths → refHeadR rfs p = false →
      ∃ e, resolvePaths st vis rfs paths = .error e := by
  intro paths
  induction paths with
  | nil =>
    intro rfs hp _
    exact absurd hp (by simp)
  | cons q qs ih =>
    intro rfs hp h
    rcases List.mem_cons.mp hp with rfl | hq
    · rcases resolvePath_not_ref_head st vis rfs p h with ⟨e, he⟩
      refine ⟨e, ?_⟩
      unfold resolvePaths
      rw [he]
      rfl
    · rcases hq1 : resolvePath st vis rfs q with e | r
      · refine ⟨e, ?_⟩
        unfold resolvePaths
        rw [hq1]
        rfl
      · have hpres : refHeadR r.1 p = false := by
          rcases resolvePath_ok_shape st vis rfs r.1 q r.2 hq1 with
            ⟨name, rest, v, _, hv, hrepl⟩
          rw [hrepl]
          exact refHeadR_preserved rfs name v hv p h
        rcases ih r.1 hq hpres with ⟨e, he⟩
        refine ⟨e, ?_⟩
        unfold resolvePaths
        rw [hq1]
        show bind (resolvePaths st vis r.1 qs) _ = .error e
        rw [he]
        rfl

/-- C7: a resolve call whose path list contains an unknown or malformed
path (empty, naming an absent field, or naming a field not declared as a
Reference or a sequence of References) fails as a whole with a
ResolutionError; the error return carries no partial result, and the input
document is untouched since resolve is a pure function that never writes
to its arguments. -/
theorem resolve_unknown_path_aborts (st : Storage) (rc : String)
    (d : Document) (paths : List (List String)) (p : List String)
    (hp : p ∈ paths) (h : refHead d.fields p = false) :
    ∃ e, resolve st rc d paths = .error e := by
  have h1 : refHeadR (embedFields d.fields) p = false := by
    rw [refHeadR_embedFields]
    exact h
  rcases resolvePaths_unknown st [(rc, d.id)] p paths (embedFields d.fields)
    hp h1 with ⟨e, he⟩
  refine ⟨e, ?_⟩
  unfold resolve
  rw [he]

/-- Witness for C7: requesting the primitive field name on the posts
scenario aborts the whole call with a ResolutionError. -/
theorem resolve_unknown_path_aborts_witness :
    (["name"] ∈ [["name"]] ∧ refHead aliceDoc.fields ["name"] = false) ∧
      ∃ e, resolve postsStorage "User" aliceDoc [["name"]] = .error e :=
  ⟨⟨by decide, rfl⟩,
    resolve_unknown_path_aborts postsStorage "User" aliceDoc [["name"]]
      ["name"] (by decide) rfl⟩

/-- Outcome of the underlying mongoose.connect call awaited by connectDB in
config/db.js: success exposes the connection host, failure carries the
error message. -/
inductive ConnectOutcome where
  | ok (host : String)
  | err (message : String)
  deriving DecidableEq, Repr

/-- Observable result of a connectDB invocation in config/db.js: a normal
return after logging the connection message, or process termination with an
exit code after logging the error message.  The type has no constructor for
a thrown or rejected error, because the try/catch in connectDB handles
every failure itself. -/
inductive ConnResult where
  | success (logMsg : String)
  | processExit (logMsg : String) (code : Nat)
  deriving DecidableEq, Repr

/-- connectDB from config/db.js: awaits mongoose.connect; on success logs
the string MongoDB connected with the host; on any error logs the string
Error with the message and calls process.exit(1). -/
def connectDB (outcome : ConnectOutcome) : ConnResult :=
  match outcome with
  | .ok host => .success ("MongoDB connected: " ++ host)
  | .err message => .processExit ("Error: " ++ message) 1

/-- C8: whenever mongoose.connect fails, connectDB logs the error message
and terminates the whole process with exit code 1; connectDB is a total
function into ConnResult, which has no error-return or rejection
constructor, so connectDB never throws, rejects, or returns an error value
and its caller can never observe or handle a connection failure. -/
theorem connectDB_exits_on_failure :
    (∀ msg, connectDB (.err msg) = .processExit ("Error: " ++ msg) 1) ∧
      ∀ o, (∃ m, connectDB o = .success m) ∨
        ∃ m, connectDB o = .processExit m 1 := by
  constructor
  · intro msg
    rfl
  · intro o
    cases o with
    | ok host => exact Or.inl ⟨_, rfl⟩
    | err m => exact Or.inr ⟨_, rfl⟩

/-- Startup actions app.js can perform, in program order. -/
inductive StartupStep where
  | invokeConnectDB
  | awaitConnectDB
  | listen (port : String)
  deriving DecidableEq, Repr

/-- Port expression of app.js, process.env.PORT with the or-operator
falling back to 8080: in JavaScript the fallback is taken exactly when PORT
is undefined or the empty string, the only falsy string. -/
def chosenPort (envPort : Option String) : String :=
  match envPort with
  | none => "8080"
  | some s => if s = "" then "8080" else s

/-- Startup sequence of app.js: connectDB() is invoked without await, then
app.listen(PORT) starts accepting requests; no step waits on the database
connection promise. -/
def appStartup (envPort : Option String) : List StartupStep :=
  [.invokeConnectDB, .listen (chosenPort envPort)]

/-- Counterexample to C9 as stated: PORT set to the empty string is a set
variable on which the server listens on 8080, not on the value PORT gives. -/
theorem appStartup_empty_port_counterexample :
    appStartup (some "") = [.invokeConnectDB, .listen "8080"] ∧
      "8080" ≠ "" :=
  ⟨rfl, by decide⟩

/-- C9 (amended): at every startup, app.js listens on the port given by
PORT when it is set to a non-empty value and on 8080 when PORT is unset or
empty; connectDB() is invoked but never awaited — the startup sequence
contains no await step — so the server accepts requests while the
connection may still be pending. -/
theorem appStartup_listens_without_await (envPort : Option String) :
    appStartup envPort = [.invokeConnectDB, .listen (chosenPort envPort)] ∧
      StartupStep.awaitConnectDB ∉ appStartup envPort ∧
      chosenPort none = "8080" ∧ chosenPort (some "") = "8080" ∧
      ∀ s, s ≠ "" → chosenPort (some s) = s := by
  refine ⟨rfl, ?_, rfl, rfl, ?_⟩
  · simp [appStartup]
  · intro s hs
    simp [chosenPort, hs]

/-- Witness for C9: with PORT set to 3000 the chosen port is 3000. -/
theorem appStartup_port_witness :
    ("3000" : String) ≠ "" ∧ chosenPort (some "3000") = "3000" :=
  ⟨by decide,
    (appStartup_listens_without_await (some "3000")).2.2.2.2 "3000"
      (by decide)⟩

/-- User roles of the tutorial userSchema enum. -/
inductive Role where
  | admin
  | user
  deriving DecidableEq, Repr

/-- Role handling of the tutorial userSchema on save: an absent role takes
the schema default user; the strings admin and user pass the enum; any
other string fails enum validation and save rejects. -/
def roleOfBody (role : Option String) : Except String Role :=
  match role with
  | none => .ok .user
  | some "admin" => .ok .admin
  | some "user" => .ok .user
  | some other => .error (other ++ " is not a valid enum value for path role")

/-- JWT payload produced by generateToken in the tutorial AuthController:
the user id and role. -/
structure TokenPayload where
  id : Nat
  role : Role
  deriving DecidableEq, Repr

/-- HTTP outcome of the register endpoint: 201 with a token on success, 400
with the save error message otherwise. -/
inductive RegisterOutcome where
  | created (storedRole : Role) (token : TokenPayload)
  | badRequest (message : String)
  deriving DecidableEq, Repr

/-- register from the tutorial AuthController: reads username, password and
role from the request body, saves the user with the schema applying the
enum and the default, and returns 201 with a token carrying the stored
role.  The function takes no principal or credential, mirroring the
authRoutes registration route, which mounts no authenticate or authorize
middleware. -/
def register (newId : Nat) (_bodyUsername _bodyPassword : String)
    (role : Option String) : RegisterOutcome :=
  match roleOfBody role with
  | .ok r => .created r ⟨newId, r⟩
  | .error m => .badRequest m

/-- C10: the register endpoint stores the role supplied in the
unauthenticated request body verbatim for both values of the schema enum,
defaults to user when the role is absent, and returns a token carrying the
stored role; since register consumes no prior credential, any caller can
create an account with the admin role. -/
theorem register_role_verbatim (newId : Nat) (u p : String) :
    register newId u p (some "admin") = .created .admin ⟨newId, .admin⟩ ∧
      register newId u p (some "user") = .created .user ⟨newId, .user⟩ ∧
      register newId u p none = .created .user ⟨newId, .user⟩ :=
  ⟨rfl, rfl, rfl⟩

end GuideMongo
